import Mathlib

/-!
Verification of the row-based input model of `sbcc-lite` (src/src/App.tsx).

The file shallowly embeds, in Lean, the parts of the app the claims are
about: the zod row schema and its numeric coercion (`rowschema`), the
first-occurrence deduplication utility (`unique`), the overlaid
component-to-category map (`componentIdToGreenmarkMap`), the componentId
cascade, row duplication, the form-value store feeding the calculator,
the lazily materialized select widget (`SelectInput`), and the export
artifact.  External collaborators (the `@citysyntax/sbcc-core` tables and
calculator, the react-hook-form runtime) are modelled where the app's
behaviour depends on their documented semantics; each such definition says
so in its doc comment.
-/

/-- A raw value arriving at a zod numeric field: form inputs deliver
strings, programmatic defaults deliver numbers.  Models the input domain
of `z.coerce.number()` as exercised by this app. -/
inductive Raw where
  | rstr (s : String)
  | rnum (q : ℚ)
deriving DecidableEq, Repr

/-- Value of a run of decimal digit characters. -/
def digitsToNat (cs : List Char) : Nat :=
  cs.foldl (fun n c => 10 * n + (c.toNat - 48)) 0

/-- Unsigned decimal literal: `digits`, `digits.digits`, `.digits` or
`digits.`; anything else is not a number.  Models the decimal-literal part
of the JavaScript `Number()` string grammar used by `z.coerce.number()`. -/
def parseUnsigned (cs : List Char) : Option ℚ :=
  let ip := cs.takeWhile (fun c => c.isDigit)
  let rest := cs.dropWhile (fun c => c.isDigit)
  match rest with
  | [] => if ip.isEmpty then none else some (digitsToNat ip)
  | '.' :: fp =>
      if fp.all (fun c => c.isDigit) && !(ip.isEmpty && fp.isEmpty) then
        some ((digitsToNat ip : ℚ) + (digitsToNat fp : ℚ) / (10 : ℚ) ^ fp.length)
      else none
  | _ => none

/-- Strip leading and trailing whitespace characters. -/
def trimChars (cs : List Char) : List Char :=
  ((cs.dropWhile (fun c => c.isWhitespace)).reverse.dropWhile (fun c => c.isWhitespace)).reverse

/-- JavaScript `Number(s)` on a string, restricted to the decimal literals
this app's inputs produce: surrounding whitespace is ignored, the empty
(or all-whitespace) string is `0`, an optional sign precedes a decimal
literal, and any other string is NaN (`none`). -/
def parseNumber (s : String) : Option ℚ :=
  match trimChars s.toList with
  | [] => some 0
  | '-' :: cs => (parseUnsigned cs).map (fun q => -q)
  | '+' :: cs => parseUnsigned cs
  | cs => parseUnsigned cs

/-- `z.coerce.number()`: numbers pass through, strings go through
`Number()`; NaN (`none`) is a type failure. -/
def coerceNumber : Raw → Option ℚ
  | Raw.rnum q => some q
  | Raw.rstr s => parseNumber s

/-- The two zod issue kinds this schema can produce on a numeric field. -/
inductive FieldError where
  | invalidType
  | tooSmall
deriving DecidableEq, Repr

deriving instance DecidableEq for Except

/-- `z.coerce.number().min(0)` — the validator of `quantity`,
`internationalRoadDistance` and `localRoadDistance` in `rowschema`. -/
def coerceNonNegNumber (r : Raw) : Except FieldError ℚ :=
  match coerceNumber r with
  | none => Except.error FieldError.invalidType
  | some q => if 0 ≤ q then Except.ok q else Except.error FieldError.tooSmall

/-- `rowschema.quantity : z.coerce.number().min(0)`. -/
def validateQuantity (r : Raw) : Except FieldError ℚ := coerceNonNegNumber r

/-- `rowschema.internationalRoadDistance : z.coerce.number().min(0)`. -/
def validateInternationalRoadDistance (r : Raw) : Except FieldError ℚ := coerceNonNegNumber r

/-- `rowschema.localRoadDistance : z.coerce.number().min(0)`. -/
def validateLocalRoadDistance (r : Raw) : Except FieldError ℚ := coerceNonNegNumber r

/-- `rowschema.manualMarineDistance : z.coerce.number().optional()` —
note: the source has no `.min(0)` here, so any coercible number is
accepted, negative values included. -/
def validateManualMarineDistance : Option Raw → Except FieldError (Option ℚ)
  | none => Except.ok none
  | some r =>
      match coerceNumber r with
      | none => Except.error FieldError.invalidType
      | some q => Except.ok (some q)

/-- C10: validation of `quantity`, `internationalRoadDistance` and
`localRoadDistance` accepts the empty string, coercing it to `0` with no
field-level error (JavaScript `Number("")` is `0` and `0` passes
`min(0)`). -/
theorem rowschema_empty_string_commits_zero :
    validateQuantity (Raw.rstr "") = Except.ok 0
    ∧ validateInternationalRoadDistance (Raw.rstr "") = Except.ok 0
    ∧ validateLocalRoadDistance (Raw.rstr "") = Except.ok 0 := by
  decide

/-- C2 as stated is false: `manualMarineDistance` is
`z.coerce.number().optional()` with no `.min(0)`, so the concrete negative
input `-5` passes its validation. -/
theorem manualMarineDistance_accepts_negative :
    validateManualMarineDistance (some (Raw.rnum (-5))) = Except.ok (some (-5))
    ∧ ((-5 : ℚ) < 0) := by
  decide

/-- C2 amended: `quantity`, `internationalRoadDistance` and
`localRoadDistance` accept decimal strings and non-negative numbers and
reject every negative value and every non-numeric string with a
field-level error; `manualMarineDistance` rejects non-numeric input but
accepts every coercible number, negative values included (the source has
no lower bound on it). -/
theorem rowschema_numeric_validation (q : ℚ) (s : String) :
    (0 ≤ q → validateQuantity (Raw.rnum q) = Except.ok q
      ∧ validateInternationalRoadDistance (Raw.rnum q) = Except.ok q
      ∧ validateLocalRoadDistance (Raw.rnum q) = Except.ok q)
    ∧ (q < 0 → validateQuantity (Raw.rnum q) = Except.error FieldError.tooSmall
      ∧ validateInternationalRoadDistance (Raw.rnum q) = Except.error FieldError.tooSmall
      ∧ validateLocalRoadDistance (Raw.rnum q) = Except.error FieldError.tooSmall)
    ∧ (parseNumber s = some q → 0 ≤ q → validateQuantity (Raw.rstr s) = Except.ok q)
    ∧ (parseNumber s = none →
        validateQuantity (Raw.rstr s) = Except.error FieldError.invalidType
        ∧ validateManualMarineDistance (some (Raw.rstr s)) = Except.error FieldError.invalidType)
    ∧ validateManualMarineDistance (some (Raw.rnum q)) = Except.ok (some q)
    ∧ validateManualMarineDistance none = Except.ok none := by
  refine ⟨fun h => ?_, fun h => ?_, fun hp hq => ?_, fun hp => ?_, ?_, rfl⟩
  · simp [validateQuantity, validateInternationalRoadDistance, validateLocalRoadDistance,
      coerceNonNegNumber, coerceNumber, if_pos h]
  · simp [validateQuantity, validateInternationalRoadDistance, validateLocalRoadDistance,
      coerceNonNegNumber, coerceNumber, if_neg (not_le.mpr h)]
  · simp [validateQuantity, coerceNonNegNumber, coerceNumber, hp, if_pos hq]
  · simp [validateQuantity, coerceNonNegNumber, coerceNumber,
      validateManualMarineDistance, hp]
  · simp [validateManualMarineDistance, coerceNumber]

/-- Witness for `rowschema_numeric_validation` at the concrete inputs
`-2` and `"abc"`. -/
theorem rowschema_numeric_validation_witness :
    validateQuantity (Raw.rnum (-2)) = Except.error FieldError.tooSmall
    ∧ validateQuantity (Raw.rstr "abc") = Except.error FieldError.invalidType :=
  ⟨((rowschema_numeric_validation (-2) "abc").2.1 (by decide)).1,
   ((rowschema_numeric_validation (-2) "abc").2.2.2.1 (by decide)).1⟩

/-- `Array.from(new Set(arr))` (App.tsx line 62) iterates the set in
insertion order, so each element is kept at its first occurrence; `seen`
is the set built so far. -/
def uniqueAux (seen : List String) : List String → List String
  | [] => []
  | x :: xs => if x ∈ seen then uniqueAux seen xs else x :: uniqueAux (x :: seen) xs

/-- `unique` (App.tsx line 62): first-occurrence deduplication of a list
of identifiers. -/
def unique (arr : List String) : List String := uniqueAux [] arr

/-- `componentIds` (App.tsx lines 64-67), as a function of the external
tables' identifier columns. -/
def componentIds (globalComponentIds countryComponentIds : List String) : List String :=
  unique (globalComponentIds ++ countryComponentIds)

/-- `countryIds` (App.tsx lines 69-72), as a function of the external
tables' country columns. -/
def countryIds (componentCountryIds portCountryIds : List String) : List String :=
  unique (componentCountryIds ++ portCountryIds)

theorem mem_uniqueAux (a : String) (l : List String) :
    ∀ seen : List String, a ∈ uniqueAux seen l ↔ a ∈ l ∧ a ∉ seen := by
  induction l with
  | nil => intro seen; simp [uniqueAux]
  | cons x xs ih =>
    intro seen
    by_cases hx : x ∈ seen
    · simp only [uniqueAux, if_pos hx, ih, List.mem_cons]
      constructor
      · rintro ⟨h1, h2⟩
        exact ⟨Or.inr h1, h2⟩
      · rintro ⟨h1, h2⟩
        rcases h1 with rfl | h1
        · exact absurd hx h2
        · exact ⟨h1, h2⟩
    · simp only [uniqueAux, if_neg hx, List.mem_cons, ih]
      constructor
      · rintro (rfl | ⟨h1, h2⟩)
        · exact ⟨Or.inl rfl, hx⟩
        · exact ⟨Or.inr h1, fun hs => h2 (Or.inr hs)⟩
      · rintro ⟨rfl | h1, h2⟩
        · exact Or.inl rfl
        · by_cases hax : a = x
          · exact Or.inl hax
          · exact Or.inr ⟨h1, fun hc => hc.elim hax h2⟩

theorem uniqueAux_sublist (l : List String) :
    ∀ seen : List String, (uniqueAux seen l).Sublist l := by
  induction l with
  | nil => intro seen; simp [uniqueAux]
  | cons x xs ih =>
    intro seen
    simp only [uniqueAux]
    by_cases hx : x ∈ seen
    · rw [if_pos hx]
      exact (ih seen).cons x
    · rw [if_neg hx]
      exact (ih (x :: seen)).cons₂ x

theorem uniqueAux_nodup (l : List String) :
    ∀ seen : List String, (uniqueAux seen l).Nodup := by
  induction l with
  | nil => intro seen; simp [uniqueAux]
  | cons x xs ih =>
    intro seen
    simp only [uniqueAux]
    by_cases hx : x ∈ seen
    · rw [if_pos hx]
      exact ih seen
    · rw [if_neg hx]
      refine List.nodup_cons.mpr ⟨fun hmem => ?_, ih (x :: seen)⟩
      exact ((mem_uniqueAux x xs (x :: seen)).mp hmem).2 (List.mem_cons_self x seen)

theorem uniqueAux_congr (l : List String) :
    ∀ seen₁ seen₂ : List String, (∀ a, a ∈ seen₁ ↔ a ∈ seen₂) →
      uniqueAux seen₁ l = uniqueAux seen₂ l := by
  induction l with
  | nil => intro _ _ _; rfl
  | cons x xs ih =>
    intro seen₁ seen₂ h
    simp only [uniqueAux]
    by_cases hx : x ∈ seen₁
    · rw [if_pos hx, if_pos ((h x).mp hx)]
      exact ih seen₁ seen₂ h
    · rw [if_neg hx, if_neg (fun hc => hx ((h x).mpr hc))]
      refine congrArg (List.cons x) (ih (x :: seen₁) (x :: seen₂) fun a => ?_)
      simp only [List.mem_cons]
      exact or_congr Iff.rfl (h a)

theorem uniqueAux_seen_cons (x : String) (l : List String) :
    ∀ seen : List String, uniqueAux (x :: seen) l =
      uniqueAux seen (l.filter (fun y => !(y == x))) := by
  induction l with
  | nil => intro seen; rfl
  | cons y ys ih =>
    intro seen
    by_cases hyx : y = x
    · have hf : List.filter (fun z => !(z == x)) (y :: ys)
          = List.filter (fun z => !(z == x)) ys := by
        simp [List.filter_cons, hyx]
      rw [hf]
      simp only [uniqueAux]
      rw [if_pos (show y ∈ x :: seen by rw [hyx]; exact List.mem_cons_self x seen)]
      exact ih seen
    · have hf : List.filter (fun z => !(z == x)) (y :: ys)
          = y :: List.filter (fun z => !(z == x)) ys := by
        simp [List.filter_cons, hyx]
      rw [hf]
      simp only [uniqueAux]
      by_cases hy : y ∈ seen
      · rw [if_pos (List.mem_cons_of_mem x hy), if_pos hy]
        exact ih seen
      · rw [if_neg (by simp [List.mem_cons, hyx, hy]), if_neg hy]
        refine congrArg (List.cons y) ?_
        rw [uniqueAux_congr ys (y :: x :: seen) (x :: y :: seen)
          (fun a => by simp [List.mem_cons]; tauto)]
        exact ih (y :: seen)

theorem unique_nil : unique [] = [] := rfl

theorem unique_cons (x : String) (xs : List String) :
    unique (x :: xs) = x :: unique (xs.filter (fun y => !(y == x))) := by
  show uniqueAux [] (x :: xs) = _
  simp only [uniqueAux, List.not_mem_nil, if_false]
  exact congrArg (List.cons x) (uniqueAux_seen_cons x xs [])

/-- C6: the component listing is the deduplicated union of the global and
country-specific component-id columns, and the country listing the
deduplicated union of the country-component and port country-id columns:
no identifier appears twice, membership is exactly that of the
concatenated inputs, relative order follows the inputs (sublist), and
`unique` keeps each identifier at its first occurrence (the recurrence
`unique (x :: xs) = x :: unique (xs minus x)`). -/
theorem listings_are_dedup_unions (g c cc p : List String) :
    ((componentIds g c).Nodup
      ∧ (∀ a, a ∈ componentIds g c ↔ a ∈ g ++ c)
      ∧ (componentIds g c).Sublist (g ++ c))
    ∧ ((countryIds cc p).Nodup
      ∧ (∀ a, a ∈ countryIds cc p ↔ a ∈ cc ++ p)
      ∧ (countryIds cc p).Sublist (cc ++ p))
    ∧ unique [] = []
    ∧ (∀ x xs, unique (x :: xs) = x :: unique (xs.filter (fun y => !(y == x)))) := by
  refine ⟨⟨uniqueAux_nodup _ [], fun a => ?_, uniqueAux_sublist _ []⟩,
    ⟨uniqueAux_nodup _ [], fun a => ?_, uniqueAux_sublist _ []⟩, rfl, unique_cons⟩
  · rw [componentIds, unique, mem_uniqueAux a (g ++ c) []]
    simp
  · rw [countryIds, unique, mem_uniqueAux a (cc ++ p) []]
    simp

/-- A Green Mark certification category (`"Concrete" | "Steel" | "Glass"`). -/
inductive Category where
  | concrete
  | steel
  | glass
deriving DecidableEq, Repr

/-- One entry of the external component tables (global or
country-specific): its identifier and its optional Green Mark category.
The tables themselves live in `@citysyntax/sbcc-core`; this is the shape
the map construction reads from them. -/
structure Component where
  componentId : String
  greenMarkCategory : Option Category
deriving DecidableEq, Repr

/-- `componentIdToGreenmarkMap` (App.tsx lines 82-92): a `reduce` over
`[...globalComponents, ...countryComponents]` writing each entry's
category under its id, so a later entry overwrites an earlier one with the
same id; a missing key reads as `undefined` (`none`). -/
def componentIdToGreenmarkMap (components : List Component) : String → Option Category :=
  components.foldl
    (fun acc comp => fun k => if k = comp.componentId then comp.greenMarkCategory else acc k)
    (fun _ => none)

theorem foldl_greenmark_not_mem (l : List Component) :
    ∀ (acc : String → Option Category) (k : String),
      k ∉ l.map Component.componentId →
      (l.foldl
        (fun acc comp => fun j => if j = comp.componentId then comp.greenMarkCategory else acc j)
        acc) k = acc k := by
  induction l with
  | nil => intro acc k _; rfl
  | cons comp cs ih =>
    intro acc k hk
    simp only [List.map_cons, List.mem_cons, not_or] at hk
    simp only [List.foldl_cons]
    rw [ih _ k hk.2]
    exact if_neg hk.1

theorem foldl_greenmark_mem_indep (l : List Component) :
    ∀ (acc acc' : String → Option Category) (k : String),
      k ∈ l.map Component.componentId →
      (l.foldl
        (fun acc comp => fun j => if j = comp.componentId then comp.greenMarkCategory else acc j)
        acc) k
      = (l.foldl
        (fun acc comp => fun j => if j = comp.componentId then comp.greenMarkCategory else acc j)
        acc') k := by
  induction l with
  | nil => intro acc acc' k hk; exact absurd hk (List.not_mem_nil k)
  | cons comp cs ih =>
    intro acc acc' k hk
    by_cases hc : k ∈ cs.map Component.componentId
    · simp only [List.foldl_cons]
      exact ih _ _ k hc
    · rw [List.map_cons] at hk
      have hkc : k = comp.componentId := by
        rcases List.mem_cons.mp hk with h | h
        · exact h
        · exact absurd h hc
      simp only [List.foldl_cons]
      rw [foldl_greenmark_not_mem cs _ k hc, foldl_greenmark_not_mem cs _ k hc,
        if_pos hkc, if_pos hkc]

/-- C4: for every component id present in the country-specific table (in
particular every id present in both tables), the overlaid map built from
`[...globalComponents, ...countryComponents]` answers with the
country-specific entry's category: country-specific entries win on
collision. -/
theorem countrySpecific_entry_wins (globalTable countryTable : List Component) (cid : String)
    (_hg : cid ∈ globalTable.map Component.componentId)
    (hc : cid ∈ countryTable.map Component.componentId) :
    componentIdToGreenmarkMap (globalTable ++ countryTable) cid
      = componentIdToGreenmarkMap countryTable cid := by
  unfold componentIdToGreenmarkMap
  rw [List.foldl_append]
  exact foldl_greenmark_mem_indep countryTable _ _ cid hc

/-- Witness for `countrySpecific_entry_wins`: the id `"X"` maps to
`Concrete` globally and to `Steel` in the country table; the overlaid map
answers `Steel`. -/
theorem countrySpecific_entry_wins_witness :
    componentIdToGreenmarkMap
        ([Component.mk "X" (some Category.concrete)] ++ [Component.mk "X" (some Category.steel)])
        "X" = some Category.steel :=
  (countrySpecific_entry_wins [Component.mk "X" (some Category.concrete)]
    [Component.mk "X" (some Category.steel)] "X" (by decide) (by decide)).trans (by decide)

/-- The `units` enum of `rowschema` (App.tsx line 53).  The source calls
the type `units`; that name is taken in Lean, hence `MassUnit`. -/
inductive MassUnit where
  | tonne
  | kg
deriving DecidableEq, Repr

/-- One row of the form's value store (`type InputRow`, App.tsx line 100).
Numeric fields hold `Raw` values — whatever the user last typed, or the
numeric default, exactly as react-hook-form keeps them in the store;
select-backed fields hold their identifiers. -/
structure InputRow where
  componentId : String
  greenMarkCategory : Option Category
  countryId : String
  quantity : Raw
  units : MassUnit
  manualMarineDistance : Option Raw
  marineVehicleId : String
  internationalRoadVehicleId : String
  internationalRoadDistance : Raw
  localRoadVehicleId : String
  localRoadDistance : Raw
deriving DecidableEq, Repr

/-- The `componentId` select's `onValueChange` handler (App.tsx lines
252-264): it commits the chosen id, then looks the id up in the overlaid
map and writes the result over the row's `greenMarkCategory` with
`form.setValue`. -/
def onComponentIdChange (gmap : String → Option Category) (row : InputRow) (v : String) :
    InputRow :=
  { row with componentId := v, greenMarkCategory := gmap v }

/-- C3: committing a `componentId` change sets the row's id to the chosen
value and its `greenMarkCategory` to the map's answer for that value,
whatever category the row held before — a prior manual override included —
and applying the same id twice is the same as applying it once. -/
theorem componentId_cascade_overwrites (gmap : String → Option Category) (row : InputRow)
    (v : String) :
    (onComponentIdChange gmap row v).componentId = v
    ∧ (onComponentIdChange gmap row v).greenMarkCategory = gmap v
    ∧ (∀ c : Option Category,
        onComponentIdChange gmap { row with greenMarkCategory := c } v
          = onComponentIdChange gmap row v)
    ∧ onComponentIdChange gmap (onComponentIdChange gmap row v) v
        = onComponentIdChange gmap row v :=
  ⟨rfl, rfl, fun _ => rfl, rfl⟩

/-- C9: when the chosen id has no entry (or an entry with an absent
category) in the overlaid map, the cascade writes `none` over the row's
`greenMarkCategory`, erasing any previously chosen or manually overridden
category. -/
theorem componentId_cascade_unmapped_clears (components : List Component) (row : InputRow)
    (v : String) (c : Category)
    (h : componentIdToGreenmarkMap components v = none) :
    (onComponentIdChange (componentIdToGreenmarkMap components)
        { row with greenMarkCategory := some c } v).greenMarkCategory = none :=
  h

/-- A concrete row, mirroring `defaultInputRow` (App.tsx lines 36-46) with
a representative first global component id. -/
def sampleRow : InputRow :=
  { componentId := "Ready-mix concrete"
    greenMarkCategory := none
    countryId := "Singapore"
    quantity := Raw.rnum 20
    units := MassUnit.tonne
    manualMarineDistance := none
    marineVehicleId := "Bulk carrier"
    internationalRoadVehicleId := "Very heavy goods vehicle"
    internationalRoadDistance := Raw.rnum 0
    localRoadVehicleId := "Heavy goods vehicle"
    localRoadDistance := Raw.rnum 50 }

/-- Witness for `componentId_cascade_unmapped_clears`: the table has an
entry for `"Y"` with an absent category, the row holds a manual `Steel`
override, and the cascade on choosing `"Y"` erases it. -/
theorem componentId_cascade_unmapped_clears_witness :
    (onComponentIdChange
        (componentIdToGreenmarkMap
          [Component.mk "X" (some Category.concrete), Component.mk "Y" none])
        { sampleRow with greenMarkCategory := some Category.steel }
        "Y").greenMarkCategory = none :=
  componentId_cascade_unmapped_clears
    [Component.mk "X" (some Category.concrete), Component.mk "Y" none]
    sampleRow "Y" Category.steel (by decide)

/-- The copy action (App.tsx lines 379-384): `append({ ...rows[index] })`
appends a spread-copy of row `index` to the end of the rows array; every
field of `InputRow` is a scalar, so the spread is a full value copy. -/
def duplicate (rows : List InputRow) (i : Nat) (h : i < rows.length) : List InputRow :=
  rows ++ [rows.get ⟨i, h⟩]

/-- C5: duplicating an in-range row `i` appends a value-copy of row `i` to
the end, grows the list by exactly one, and leaves every existing row, in
its position, unchanged. -/
theorem duplicate_appends_value_copy (rows : List InputRow) (i : Nat) (h : i < rows.length) :
    (duplicate rows i h).length = rows.length + 1
    ∧ (duplicate rows i h).getLast? = some (rows.get ⟨i, h⟩)
    ∧ (duplicate rows i h).take rows.length = rows := by
  refine ⟨by simp [duplicate], ?_, ?_⟩
  · rw [duplicate, List.getLast?_concat]
  · rw [duplicate, List.take_left]

/-- Witness for `duplicate_appends_value_copy` on the one-row list
`[sampleRow]`. -/
theorem duplicate_appends_value_copy_witness :
    (duplicate [sampleRow] 0 (by decide)).length = 1 + 1
    ∧ (duplicate [sampleRow] 0 (by decide)).getLast? = some sampleRow
    ∧ (duplicate [sampleRow] 0 (by decide)).take 1 = [sampleRow] :=
  duplicate_appends_value_copy [sampleRow] 0 (by decide)

/-- The interaction state of one `SelectInput` (App.tsx lines 418-470):
the bound value it is given (`value ?? ""` renders as absent when empty)
and the local `open` flag from `useState(false)` (line 429). -/
structure SelectInputState where
  boundValue : Option String
  isOpen : Bool
deriving DecidableEq, Repr

/-- `onOpenChange={setOpen}` (App.tsx line 436): an open or close
transition stores the new flag and touches nothing else — in particular it
never calls `onValueChange`, the only channel back into the form store. -/
def onOpenChange (s : SelectInputState) (b : Bool) : SelectInputState :=
  { s with isOpen := b }

/-- The item kept in the content while closed (App.tsx lines 458-466): the
selected value's single item, or nothing when no value is selected. -/
def selectedItem (s : SelectInputState) : List String :=
  match s.boundValue with
  | some v => [v]
  | none => []

/-- The options materialized in the select content (App.tsx lines
440-466): the whole option list while open, only the selected value's item
while closed. -/
def materializedOptions (s : SelectInputState) (options : List String) : List String :=
  if s.isOpen then options else selectedItem s

/-- C8: any sequence of open/close transitions leaves the chooser's bound
value exactly as it was — closing then reopening never changes it — while
the materialized option list toggles between the full list (open) and the
selected item alone (closed). -/
theorem open_close_preserves_bound_value (s : SelectInputState) (events : List Bool)
    (options : List String) :
    (events.foldl onOpenChange s).boundValue = s.boundValue
    ∧ materializedOptions { s with isOpen := true } options = options
    ∧ materializedOptions { s with isOpen := false } options = selectedItem s := by
  refine ⟨?_, rfl, rfl⟩
  induction events generalizing s with
  | nil => rfl
  | cons e es ih => exact ih (onOpenChange s e)

/-- The react-hook-form value store of this form (App.tsx lines 103-116):
`rows`, `gfa` and `referenceValue`.  `form.watch()` (line 118) returns
this store itself, and line 126 passes exactly that to
`calculateGreenMark`. -/
structure FormValues where
  rows : List InputRow
  gfa : Raw
  referenceValue : Raw
deriving DecidableEq, Repr

/-- `const calculatorParameters = form.watch()` (App.tsx line 118): the
parameters handed to the calculator are the current value store. -/
def calculatorParameters (v : FormValues) : FormValues := v

/-- Replace row `i` (when present) by `f` of it, leaving the rest as is. -/
def updateRowAt (rows : List InputRow) (i : Nat) (f : InputRow → InputRow) : List InputRow :=
  match rows, i with
  | [], _ => []
  | x :: xs, 0 => f x :: xs
  | x :: xs, Nat.succ j => x :: updateRowAt xs j f

/-- A quantity field edit (App.tsx lines 294-299 wire
`<Input type="number" {...field} />` straight to the store): per the
react-hook-form semantics the app relies on, `field.onChange` writes the
typed value into the value store unconditionally; the `zodResolver`
(lines 109-115) only produces the error messages shown by `FormMessage`
and neither filters nor blocks the stored value. -/
def setRowQuantity (v : FormValues) (i : Nat) (r : Raw) : FormValues :=
  { v with rows := updateRowAt v.rows i (fun row => { row with quantity := r }) }

/-- A concrete value store: the initial state of the form (App.tsx lines
104-108) with `sampleRow` as its single default row. -/
def sampleFormValues : FormValues :=
  { rows := [sampleRow], gfa := Raw.rnum 1000, referenceValue := Raw.rnum 1 }

/-- C1 fails as stated: the concrete edit of row 0's `quantity` to the
string `"-5"` fails row validation, yet the value store — which
`form.watch` hands to `calculateGreenMark` as the state Output is derived
from — changes to hold the invalid value. -/
theorem invalid_edit_mutates_watched_state :
    validateQuantity (Raw.rstr "-5") = Except.error FieldError.tooSmall
    ∧ setRowQuantity sampleFormValues 0 (Raw.rstr "-5") ≠ sampleFormValues
    ∧ calculatorParameters (setRowQuantity sampleFormValues 0 (Raw.rstr "-5"))
        ≠ calculatorParameters sampleFormValues
    ∧ (setRowQuantity sampleFormValues 0 (Raw.rstr "-5")).rows.get? 0
        = some { sampleRow with quantity := Raw.rstr "-5" } := by
  refine ⟨by decide, by decide, by decide, rfl⟩

theorem updateRowAt_get_same (rows : List InputRow) (f : InputRow → InputRow) :
    ∀ i (h : i < rows.length),
      (updateRowAt rows i f).get? i = some (f (rows.get ⟨i, h⟩)) := by
  induction rows with
  | nil => intro i h; exact absurd h (Nat.not_lt_zero i)
  | cons x xs ih =>
    intro i h
    cases i with
    | zero => rfl
    | succ j => exact ih j (Nat.lt_of_succ_lt_succ h)

theorem updateRowAt_get_other (rows : List InputRow) (f : InputRow → InputRow) :
    ∀ i j, j ≠ i → (updateRowAt rows i f).get? j = rows.get? j := by
  induction rows with
  | nil => intro i j _; rfl
  | cons x xs ih =>
    intro i j hji
    cases i with
    | zero =>
      cases j with
      | zero => exact absurd rfl hji
      | succ k => rfl
    | succ i' =>
      cases j with
      | zero => rfl
      | succ k => exact ih i' k (fun hc => hji (congrArg Nat.succ hc))

/-- C1 amended: a field edit always commits the typed value to the value
store `form.watch` exposes — whether or not the value passes validation —
so an invalid value does reach the state Output is derived from; failed
validation surfaces only as a field error next to the input, while the
other rows, the other fields of the row, `gfa` and `referenceValue` are
untouched. -/
theorem field_edit_always_commits (v : FormValues) (i : Nat) (r : Raw)
    (h : i < v.rows.length) :
    (setRowQuantity v i r).rows.get? i = some { v.rows.get ⟨i, h⟩ with quantity := r }
    ∧ (∀ j, j ≠ i → (setRowQuantity v i r).rows.get? j = v.rows.get? j)
    ∧ (setRowQuantity v i r).gfa = v.gfa
    ∧ (setRowQuantity v i r).referenceValue = v.referenceValue
    ∧ calculatorParameters (setRowQuantity v i r) = setRowQuantity v i r := by
  exact ⟨updateRowAt_get_same v.rows _ i h,
    fun j hj => updateRowAt_get_other v.rows _ i j hj, rfl, rfl, rfl⟩

/-- Witness for `field_edit_always_commits` on `sampleFormValues`, row 0,
the invalid input `"-5"`. -/
theorem field_edit_always_commits_witness :
    (setRowQuantity sampleFormValues 0 (Raw.rstr "-5")).rows.get? 0
      = some { sampleRow with quantity := Raw.rstr "-5" } :=
  (field_edit_always_commits sampleFormValues 0 (Raw.rstr "-5") (by decide)).1

/-- Modelled from the spec: one row of the `Output` entity produced by the
external `calculateGreenMark` of `@citysyntax/sbcc-core` (the package is
outside this repository) — at least the `a1a3` and `a4` figures. -/
structure OutputRow where
  a1a3 : ℚ
  a4 : ℚ

/-- Modelled from the spec: the `Output` entity of `calculateGreenMark` —
a version tag, the aggregate figures, the score, and one entry per row. -/
structure Output where
  version : String
  totalEmissions : ℚ
  embodiedCarbonPerGfa : ℚ
  embodiedCarbonPerGfaComparedToReference : ℚ
  greenMarkScore : ℕ
  rows : List OutputRow

/-- A JSON tree, enough to state what `JSON.stringify` serializes. -/
inductive Json where
  | str (s : String)
  | num (q : ℚ)
  | arr (xs : List Json)
  | obj (fields : List (String × Json))

/-- Serialization of one output row. -/
def jsonOfOutputRow (r : OutputRow) : Json :=
  Json.obj [("a1a3", Json.num r.a1a3), ("a4", Json.num r.a4)]

/-- `JSON.stringify(output, null, 2)` (App.tsx line 180) as the JSON tree
it serializes: the fields of the Output entity itself, in declaration
order — nothing of the raw form state appears. -/
def jsonOfOutput (o : Output) : Json :=
  Json.obj
    [("version", Json.str o.version),
     ("totalEmissions", Json.num o.totalEmissions),
     ("embodiedCarbonPerGfa", Json.num o.embodiedCarbonPerGfa),
     ("embodiedCarbonPerGfaComparedToReference",
       Json.num o.embodiedCarbonPerGfaComparedToReference),
     ("greenMarkScore", Json.num o.greenMarkScore),
     ("rows", Json.arr (o.rows.map jsonOfOutputRow))]

/-- The one-shot download the export button builds (App.tsx lines
177-193): a single file with a fixed name and the serialized content. -/
structure ExportArtifact where
  filename : String
  content : Json

/-- The export action: its input is the `output` value alone — the raw
form state is not in scope of the serialization — and it produces the file
`output.sbcc.json` holding `JSON.stringify(output, null, 2)`. -/
def exportOutput (o : Output) : ExportArtifact :=
  { filename := "output.sbcc.json", content := jsonOfOutput o }

/-- Top-level keys of a JSON tree (empty for non-objects). -/
def topLevelKeys : Json → List String
  | Json.obj fields => fields.map Prod.fst
  | _ => []

/-- C7: triggering export yields a single artifact named
`output.sbcc.json` whose top level is exactly the serialization of the
Output entity — `version`, `totalEmissions`, `embodiedCarbonPerGfa`,
`embodiedCarbonPerGfaComparedToReference`, `greenMarkScore`, and `rows`
with `a1a3`/`a4` per row — and, being a function of the Output alone, of
nothing in the raw Calculator State. -/
theorem export_serializes_output (o : Output) :
    (exportOutput o).filename = "output.sbcc.json"
    ∧ (exportOutput o).content = Json.obj
        [("version", Json.str o.version),
         ("totalEmissions", Json.num o.totalEmissions),
         ("embodiedCarbonPerGfa", Json.num o.embodiedCarbonPerGfa),
         ("embodiedCarbonPerGfaComparedToReference",
           Json.num o.embodiedCarbonPerGfaComparedToReference),
         ("greenMarkScore", Json.num o.greenMarkScore),
         ("rows", Json.arr (o.rows.map
           (fun r => Json.obj [("a1a3", Json.num r.a1a3), ("a4", Json.num r.a4)])))]
    ∧ topLevelKeys (exportOutput o).content
        = ["version", "totalEmissions", "embodiedCarbonPerGfa",
           "embodiedCarbonPerGfaComparedToReference", "greenMarkScore", "rows"] :=
  ⟨rfl, rfl, rfl⟩
